import Mathlib

/-!
Shallow embedding of `src/pyfolio/volatility.py` (historical volatility
estimators over pandas Series of daily open/high/low/close prices).

Modelling conventions:
* A float cell is `Val := Option ℝ`; `none` models an undefined value
  (NaN, or a non-finite value produced by an invalid operation such as
  log of a non-positive number, square root of a negative number, or
  division by zero).
* A pandas `Series` is a `List Val`; the inputs of the estimators are
  lists of defined values (`List ℝ` injected with `Option.some`).
* `Series.shift(1)` keeps the length and makes position 0 undefined.
* Reductions follow the pandas defaults used by the source: `.sum()`,
  `np.sum`, `.var()` and `np.std(_, ddof=1)` all skip undefined values
  (`skipna=True`), and `.var()`/`np.std` use `ddof = 1`.
* `yang_zhang` computes `k` with Python integer arithmetic; with a single
  observation `(N + 1) / (N - 1)` raises `ZeroDivisionError`, so the
  embedding returns `Except.error "ZeroDivisionError"` in that case.
-/

namespace Volatility

noncomputable section

/-- A float cell: `none` is an undefined (NaN / non-finite) value. -/
abbrev Val : Type := Option ℝ

/-- Elementwise `np.log`: defined only on strictly positive values. -/
def vlog : Val → Val := fun v => v.bind fun x => if 0 < x then some (Real.log x) else none

/-- Elementwise `np.sqrt`: defined only on nonnegative values. -/
def vsqrt : Val → Val := fun v => v.bind fun x => if 0 ≤ x then some (Real.sqrt x) else none

/-- Elementwise division of floats; division by zero is undefined. -/
def vdiv : Val → Val → Val := fun a b =>
  a.bind fun x => b.bind fun y => if y = 0 then none else some (x / y)

/-- Elementwise multiplication of floats. -/
def vmul : Val → Val → Val := fun a b => a.bind fun x => b.bind fun y => some (x * y)

/-- Elementwise addition of floats. -/
def vadd : Val → Val → Val := fun a b => a.bind fun x => b.bind fun y => some (x + y)

/-- Elementwise `np.square`. -/
def vsq : Val → Val := Option.map fun x => x ^ 2

/-- `Series.shift(1)`: same length, position 0 becomes undefined. -/
def shift1 : List Val → List Val
  | [] => []
  | l => none :: l.dropLast

/-- The defined (non-NaN) entries of a series, in order. -/
def valid (l : List Val) : List ℝ := l.filterMap id

/-- pandas `Series.sum()` (and `np.sum` on a Series): skips undefined values. -/
def psum (l : List Val) : ℝ := (valid l).sum

/-- The number of defined entries (pandas `count`). -/
def pcount (l : List Val) : ℕ := (valid l).length

/-- pandas sample variance with the given `ddof`, skipping undefined values;
undefined when `count ≤ ddof`. -/
def pvar (ddof : ℕ) (l : List Val) : Val :=
  if ddof < pcount l then
    some (((valid l).map fun x => (x - psum l / (pcount l : ℝ)) ^ 2).sum / ((pcount l - ddof : ℕ) : ℝ))
  else none

/-- pandas standard deviation (`np.std(s, ddof)` delegates to `Series.std`). -/
def pstd (ddof : ℕ) (l : List Val) : Val := vsqrt (pvar ddof l)

/-- `overnight_returns(O, C) = np.log(O / C.shift(1))`. -/
def overnight_returns (O C : List Val) : List Val :=
  (List.zipWith vdiv O (shift1 C)).map vlog

/-- `intraday_returns(O, C) = np.log(C / O)`. -/
def intraday_returns (O C : List Val) : List Val :=
  (List.zipWith vdiv C O).map vlog

/-- `intraday_range(H, L) = np.log(H / L)`. -/
def intraday_range (H L : List Val) : List Val :=
  (List.zipWith vdiv H L).map vlog

/-- `log_returns(values) = np.log(values / values.shift(1)).dropna()`. -/
def log_returns (values : List Val) : List Val :=
  ((List.zipWith vdiv values (shift1 values)).map vlog).filter fun v => v.isSome

/-- `close_to_close(close_values)`: `np.std` of the (not dropped) raw
log-return series, with `ddof = 1`. -/
def close_to_close (close_values : List Val) : Val :=
  pstd 1 ((List.zipWith vdiv close_values (shift1 close_values)).map vlog)

/-- `parkinson_vol(hi, low)`. -/
def parkinson_vol (hi low : List Val) : Val :=
  let ranges := (intraday_range hi low).map vsq
  vsqrt (vdiv (some (psum ranges)) (some (4 * (ranges.length : ℝ) * Real.log 2)))

/-- `garman_klass(O, H, L, C)`; note the source calls `intraday_returns(C, O)`
with swapped arguments. -/
def garman_klass (O H L C : List Val) : Val :=
  let ranges := (intraday_range H L).map vsq
  let intraday_R := (intraday_returns C O).map vsq
  vsqrt (vdiv (some (0.5 * psum ranges - (2 * Real.log 2 - 1) * psum intraday_R))
    (some ((ranges.length : ℝ))))

/-- `garman_klass_ext(O, H, L, C)`. The source computes
`var = oR.sum() + irange / 2.0 - (2*log(2) - 1) * iR.sum()`, where `irange`
is a Series that is never summed, so `var` is a Series (scalar terms
broadcast elementwise) and the function returns a Series, one value per row. -/
def garman_klass_ext (O H L C : List Val) : List Val :=
  let oR := (overnight_returns O C).map vsq
  let iR := (intraday_returns O C).map vsq
  let irange := (intraday_range H L).map vsq
  let var := irange.map fun v =>
    v.map fun x => psum oR + x / 2 - (2 * Real.log 2 - 1) * psum iR
  var.map fun v => vsqrt (vdiv v (some ((O.length : ℝ))))

/-- `rodgers_satchell(O, H, L, C)`. -/
def rodgers_satchell (O H L C : List Val) : Val :=
  let high_ref := List.zipWith vmul ((List.zipWith vdiv H C).map vlog)
    ((List.zipWith vdiv H O).map vlog)
  let low_ref := List.zipWith vmul ((List.zipWith vdiv L C).map vlog)
    ((List.zipWith vdiv L O).map vlog)
  vsqrt (vdiv (some (psum high_ref + psum low_ref)) (some ((O.length : ℝ))))

/-- `yang_zhang(O, H, L, C)`; with `N = 1` the Python expression
`(N + 1) / (N - 1)` raises `ZeroDivisionError`. -/
def yang_zhang (O H L C : List Val) : Except String Val :=
  if O.length = 1 then Except.error "ZeroDivisionError" else
  let N : ℝ := (O.length : ℝ)
  let k : ℝ := 0.34 / (1.34 + (N + 1) / (N - 1))
  let overnight_var := pvar 1 (overnight_returns O C)
  let intraday_var := pvar 1 (intraday_returns O C)
  let rs_var := vsq (rodgers_satchell O H L C)
  Except.ok (vsqrt (vadd (vadd overnight_var (vmul (some k) intraday_var))
    (vmul (some (1 - k)) rs_var)))

/-- The canonical form of `garman_klass` described by the spec for the
refinement claim: identical except that the squared intraday-return term is
computed as `intraday_returns(O, C)` instead of `intraday_returns(C, O)`. -/
def garman_klass_canonical (O H L C : List Val) : Val :=
  let ranges := (intraday_range H L).map vsq
  let intraday_R := (intraday_returns O C).map vsq
  vsqrt (vdiv (some (0.5 * psum ranges - (2 * Real.log 2 - 1) * psum intraday_R))
    (some ((ranges.length : ℝ))))

/-- Mathematical shorthand used only in statements: the log price ratio. -/
def logdiv (a b : ℝ) : ℝ := Real.log (a / b)

/-- Mathematical shorthand used only in statements: the list of
close-to-close log returns of a series of prices. -/
def logret (v : List ℝ) : List ℝ := List.zipWith logdiv v.tail v

/-! ### Basic facts about the elementwise float operations -/

@[simp] theorem vlog_none : vlog none = none := rfl

@[simp] theorem vlog_some (x : ℝ) :
    vlog (some x) = if 0 < x then some (Real.log x) else none := rfl

@[simp] theorem vsqrt_none : vsqrt none = none := rfl

@[simp] theorem vsqrt_some (x : ℝ) :
    vsqrt (some x) = if 0 ≤ x then some (Real.sqrt x) else none := rfl

@[simp] theorem vdiv_none_left (v : Val) : vdiv none v = none := rfl

@[simp] theorem vdiv_none_right (v : Val) : vdiv v none = none := by cases v <;> rfl

@[simp] theorem vdiv_some_some (x y : ℝ) :
    vdiv (some x) (some y) = if y = 0 then none else some (x / y) := rfl

@[simp] theorem vmul_none_left (v : Val) : vmul none v = none := rfl

@[simp] theorem vmul_none_right (v : Val) : vmul v none = none := by cases v <;> rfl

@[simp] theorem vmul_some_some (x y : ℝ) : vmul (some x) (some y) = some (x * y) := rfl

@[simp] theorem vadd_none_left (v : Val) : vadd none v = none := rfl

@[simp] theorem vadd_none_right (v : Val) : vadd v none = none := by cases v <;> rfl

@[simp] theorem vadd_some_some (x y : ℝ) : vadd (some x) (some y) = some (x + y) := rfl

@[simp] theorem vsq_none : vsq none = none := rfl

@[simp] theorem vsq_some (x : ℝ) : vsq (some x) = some (x ^ 2) := rfl

@[simp] theorem shift1_nil : shift1 [] = [] := rfl

theorem shift1_cons (a : Val) (l : List Val) :
    shift1 (a :: l) = none :: (a :: l).dropLast := rfl

@[simp] theorem valid_nil : valid [] = [] := rfl

@[simp] theorem valid_cons_none (l : List Val) : valid (none :: l) = valid l := by
  simp [valid]

@[simp] theorem valid_cons_some (x : ℝ) (l : List Val) :
    valid (some x :: l) = x :: valid l := by
  simp [valid]

@[simp] theorem valid_map_some (l : List ℝ) : valid (l.map some) = l := by
  simp only [valid, List.filterMap_map]
  exact List.filterMap_some l

@[simp] theorem psum_nil : psum [] = 0 := rfl

@[simp] theorem psum_cons_none (l : List Val) : psum (none :: l) = psum l := by
  simp [psum]

@[simp] theorem psum_cons_some (x : ℝ) (l : List Val) :
    psum (some x :: l) = x + psum l := by
  simp [psum]

@[simp] theorem psum_map_some (l : List ℝ) : psum (l.map some) = l.sum := by
  simp [psum]

/-! ### zipWith and shift lemmas -/

theorem zipWith_dropLast {α β γ : Type} (f : α → β → γ) :
    ∀ (L : List α) (M : List β), L.length + 1 ≤ M.length →
      List.zipWith f L M.dropLast = List.zipWith f L M := by
  intro L
  induction L with
  | nil => intro M _; simp
  | cons a L ih =>
    intro M h
    cases M with
    | nil => simp at h
    | cons b M =>
      cases M with
      | nil => simp at h
      | cons c M =>
        simp only [List.dropLast_cons₂, List.zipWith_cons_cons]
        rw [ih (c :: M) (by simp at h ⊢; omega)]

theorem zipWith_shift1 {α γ : Type} (f : α → Val → γ) (L : List α) (M : List Val)
    (h : L.length ≤ M.length) :
    List.zipWith f L (shift1 M) = List.zipWith f L (none :: M) := by
  cases M with
  | nil =>
    cases L with
    | nil => rfl
    | cons a L => simp at h
  | cons b M =>
    rw [shift1_cons]
    cases L with
    | nil => rfl
    | cons a L =>
      simp only [List.zipWith_cons_cons]
      congr 1
      exact zipWith_dropLast f L (b :: M) (by simp at h ⊢; omega)

theorem zipWith_vld_somes (xs ys : List ℝ) (hx : ∀ x ∈ xs, 0 < x)
    (hy : ∀ y ∈ ys, 0 < y) :
    (List.zipWith vdiv (xs.map some) (ys.map some)).map vlog =
      (List.zipWith logdiv xs ys).map some := by
  induction xs generalizing ys with
  | nil => simp
  | cons a xs ih =>
    cases ys with
    | nil => simp
    | cons b ys =>
      have ha : 0 < a := hx a (by simp)
      have hb : 0 < b := hy b (by simp)
      simp only [List.map_cons, List.zipWith_cons_cons]
      rw [ih ys (fun x hx2 => hx x (List.mem_cons_of_mem _ hx2))
        (fun y hy2 => hy y (List.mem_cons_of_mem _ hy2))]
      simp [hb.ne', div_pos ha hb, logdiv]

theorem zipWith_vmul_somes (xs ys : List ℝ) :
    List.zipWith vmul (xs.map some) (ys.map some) =
      (List.zipWith (fun a b => a * b) xs ys).map some := by
  rw [List.zipWith_map vmul some some xs ys, List.map_zipWith]
  rfl

theorem map_vsq_somes (l : List ℝ) :
    (l.map some).map vsq = (l.map fun x => x ^ 2).map some := by
  simp only [List.map_map]
  rfl

/-! ### Primitive series on all-defined positive inputs -/

theorem overnight_somes (O C : List ℝ) (hO : ∀ x ∈ O, 0 < x) (hC : ∀ y ∈ C, 0 < y)
    (hlen : O.length = C.length) (hne : O ≠ []) :
    overnight_returns (O.map some) (C.map some) =
      none :: (List.zipWith logdiv O.tail C).map some := by
  unfold overnight_returns
  rw [zipWith_shift1 vdiv (O.map some) (C.map some) (by simp [hlen])]
  cases O with
  | nil => exact absurd rfl hne
  | cons a O =>
    simp only [List.map_cons, List.zipWith_cons_cons, List.tail_cons]
    congr 1
    exact zipWith_vld_somes O C (fun x hx2 => hO x (List.mem_cons_of_mem _ hx2)) hC

theorem raw_logret (v : List ℝ) (hv : ∀ x ∈ v, 0 < x) (hne : v ≠ []) :
    (List.zipWith vdiv (v.map some) (shift1 (v.map some))).map vlog =
      none :: (logret v).map some :=
  overnight_somes v v hv hv rfl hne

theorem intraday_somes (O C : List ℝ) (hO : ∀ x ∈ O, 0 < x) (hC : ∀ y ∈ C, 0 < y) :
    intraday_returns (O.map some) (C.map some) =
      (List.zipWith logdiv C O).map some :=
  zipWith_vld_somes C O hC hO

theorem range_somes (H L : List ℝ) (hH : ∀ x ∈ H, 0 < x) (hL : ∀ y ∈ L, 0 < y) :
    intraday_range (H.map some) (L.map some) =
      (List.zipWith logdiv H L).map some :=
  zipWith_vld_somes H L hH hL

@[simp] theorem pcount_nil : pcount [] = 0 := rfl

@[simp] theorem pcount_cons_none (l : List Val) : pcount (none :: l) = pcount l := by
  simp [pcount]

@[simp] theorem pcount_map_some (l : List ℝ) : pcount (l.map some) = l.length := by
  simp [pcount]

theorem pvar_zeros (l : List Val) (m : ℕ) (hv : valid l = List.replicate m 0)
    (hm : 2 ≤ m) : pvar 1 l = some 0 := by
  have hc : pcount l = m := by simp [pcount, hv]
  have hs : psum l = 0 := by simp [psum, hv]
  rw [pvar, if_pos (by rw [hc]; omega)]
  rw [hv, hs, hc]
  norm_num

theorem pstd_zeros (l : List Val) (m : ℕ) (hv : valid l = List.replicate m 0)
    (hm : 2 ≤ m) : pstd 1 l = some 0 := by
  rw [pstd, pvar_zeros l m hv hm]
  simp

/-! ### Claim theorems -/

/-- C5: calling `yang_zhang` with exactly one observation signals the division
by zero arising in the factor `k = 0.34 / (1.34 + (N+1)/(N-1))` (Python raises
`ZeroDivisionError`, modelled as an `Except.error`), rather than crashing
ambiguously or returning a number. -/
theorem spec_c5 (O H L C : List Val) (h : O.length = 1) :
    yang_zhang O H L C = Except.error "ZeroDivisionError" := by
  rw [yang_zhang, if_pos h]

/-- Witness for C5 at the one-observation input `O = H = L = C = [1]`. -/
theorem spec_c5_witness :
    ([some (1:ℝ)] : List Val).length = 1 ∧
      yang_zhang [some (1:ℝ)] [some (1:ℝ)] [some (1:ℝ)] [some (1:ℝ)] =
        Except.error "ZeroDivisionError" :=
  ⟨rfl, spec_c5 _ _ _ _ rfl⟩

/-- C6: on positive inputs, `log_returns` drops the undefined leading position
(length `n - 1`, empty for a length-1 input), while `overnight_returns`,
`intraday_returns` and `intraday_range` keep the input length, with position 0
undefined for `overnight_returns` only (its tail, and every entry of the other
two, is defined). -/
theorem spec_c6 (values O C H L : List ℝ)
    (hval : ∀ x ∈ values, 0 < x) (hvne : values ≠ [])
    (hO : ∀ x ∈ O, 0 < x) (hC : ∀ x ∈ C, 0 < x)
    (hH : ∀ x ∈ H, 0 < x) (hL2 : ∀ x ∈ L, 0 < x)
    (hOC : O.length = C.length) (hHL : H.length = L.length) (hOne : O ≠ []) :
    (log_returns (values.map some)).length = values.length - 1 ∧
    (overnight_returns (O.map some) (C.map some)).length = O.length ∧
    (intraday_returns (O.map some) (C.map some)).length = O.length ∧
    (intraday_range (H.map some) (L.map some)).length = H.length ∧
    (overnight_returns (O.map some) (C.map some)).head? = some none ∧
    (∀ v ∈ (overnight_returns (O.map some) (C.map some)).tail, v.isSome = true) ∧
    (∀ v ∈ intraday_returns (O.map some) (C.map some), v.isSome = true) ∧
    (∀ v ∈ intraday_range (H.map some) (L.map some), v.isSome = true) := by
  have hov := overnight_somes O C hO hC hOC hOne
  have hin := intraday_somes O C hO hC
  have hra := range_somes H L hH hL2
  refine ⟨?_, ?_, ?_, ?_, ?_, ?_, ?_, ?_⟩
  · rw [log_returns, raw_logret values hval hvne,
      List.filter_cons_of_neg (by simp),
      List.filter_eq_self.mpr (by
        intro a ha
        rcases List.mem_map.mp ha with ⟨x, _, rfl⟩
        rfl)]
    rw [List.length_map, logret, List.length_zipWith, List.length_tail]
    exact min_eq_left (Nat.sub_le _ _)
  · rw [hov]
    simp only [List.length_cons, List.length_map, List.length_zipWith,
      List.length_tail]
    rw [min_eq_left (by rw [← hOC]; exact Nat.sub_le _ _)]
    have := List.length_pos.mpr hOne
    omega
  · rw [hin, List.length_map, List.length_zipWith, ← hOC, min_self]
  · rw [hra, List.length_map, List.length_zipWith, ← hHL, min_self]
  · rw [hov]
    rfl
  · rw [hov, List.tail_cons]
    intro v hv
    rcases List.mem_map.mp hv with ⟨x, _, rfl⟩
    rfl
  · rw [hin]
    intro v hv
    rcases List.mem_map.mp hv with ⟨x, _, rfl⟩
    rfl
  · rw [hra]
    intro v hv
    rcases List.mem_map.mp hv with ⟨x, _, rfl⟩
    rfl

/-- Witness for C6 at `values = [1, 2]`, `O = C = H = L = [1]`. -/
theorem spec_c6_witness :
    (([(1:ℝ), 2] : List ℝ) ≠ []) ∧
      (log_returns (([(1:ℝ), 2] : List ℝ).map some)).length =
        ([(1:ℝ), 2] : List ℝ).length - 1 :=
  ⟨by simp, (spec_c6 [1, 2] [1] [1] [1] [1]
    (by intro x hx; simp at hx; rcases hx with h | h <;> simp [h])
    (by simp)
    (by intro x hx; simp at hx; simp [hx])
    (by intro x hx; simp at hx; simp [hx])
    (by intro x hx; simp at hx; simp [hx])
    (by intro x hx; simp at hx; simp [hx])
    rfl rfl (by simp)).1⟩

/-- C7: for equal-length positive series with `H_i ≥ L_i` and at least one
observation, `parkinson_vol` equals
`sqrt(sum(ln(H_i/L_i)^2) / (4 * N * ln 2))`, is defined and nonnegative, and
is `0` when `H = L`. -/
theorem spec_c7 (H L : List ℝ) (hlen : H.length = L.length) (hn : 1 ≤ H.length)
    (hH : ∀ x ∈ H, 0 < x) (hL2 : ∀ x ∈ L, 0 < x)
    (hHL : List.Forall₂ (fun a b => b ≤ a) H L) :
    parkinson_vol (H.map some) (L.map some) =
      some (Real.sqrt ((List.zipWith (fun a b => logdiv a b ^ 2) H L).sum /
        (4 * (H.length : ℝ) * Real.log 2))) ∧
    (∃ r, parkinson_vol (H.map some) (L.map some) = some r ∧ 0 ≤ r) ∧
    (H = L → parkinson_vol (H.map some) (L.map some) = some 0) := by
  have hsq : (List.zipWith logdiv H L).map (fun x => x ^ 2) =
      List.zipWith (fun a b => logdiv a b ^ 2) H L := by
    rw [List.map_zipWith]
  have hnn : 0 ≤ (List.zipWith (fun a b => logdiv a b ^ 2) H L).sum := by
    apply List.sum_nonneg
    intro x hx
    rw [← hsq] at hx
    rcases List.mem_map.mp hx with ⟨y, _, rfl⟩
    exact sq_nonneg y
  have hdpos : (0:ℝ) < 4 * (H.length : ℝ) * Real.log 2 := by
    have h2 : (0:ℝ) < Real.log 2 := Real.log_pos (by norm_num)
    have h3 : (0:ℝ) < (H.length : ℝ) := by exact_mod_cast hn
    have h4 : (0:ℝ) < 4 * (H.length : ℝ) := by linarith
    exact mul_pos h4 h2
  have hmin : H.length ⊓ L.length = H.length := by rw [hlen, min_self]
  have hmain : parkinson_vol (H.map some) (L.map some) =
      some (Real.sqrt ((List.zipWith (fun a b => logdiv a b ^ 2) H L).sum /
        (4 * (H.length : ℝ) * Real.log 2))) := by
    simp only [parkinson_vol]
    rw [range_somes H L hH hL2, map_vsq_somes, psum_map_some, hsq]
    simp only [List.length_map, List.length_zipWith]
    rw [hmin, vdiv_some_some, if_neg hdpos.ne', vsqrt_some,
      if_pos (div_nonneg hnn hdpos.le)]
  refine ⟨hmain, ⟨_, hmain, Real.sqrt_nonneg _⟩, ?_⟩
  intro hEQ
  subst hEQ
  have hzero : (List.zipWith (fun a b => logdiv a b ^ 2) H H).sum = 0 := by
    apply List.sum_eq_zero
    intro x hx
    rw [List.zipWith_same] at hx
    rcases List.mem_map.mp hx with ⟨y, hy, rfl⟩
    simp [logdiv, div_self (hH y hy).ne']
  rw [hmain, hzero, zero_div, Real.sqrt_zero]

/-- Witness for C7 at `H = L = [1]`. -/
theorem spec_c7_witness :
    1 ≤ ([(1:ℝ)] : List ℝ).length ∧
      parkinson_vol (([(1:ℝ)] : List ℝ).map some) (([(1:ℝ)] : List ℝ).map some) =
        some (Real.sqrt
          ((List.zipWith (fun a b => logdiv a b ^ 2) [(1:ℝ)] [(1:ℝ)]).sum /
            (4 * (([(1:ℝ)] : List ℝ).length : ℝ) * Real.log 2))) :=
  ⟨by simp, (spec_c7 [1] [1] rfl (by simp)
    (by intro x hx; simp at hx; simp [hx])
    (by intro x hx; simp at hx; simp [hx])
    (by simp)).1⟩

/-- C3: on a positive series with at least 3 values (so that the sample
standard deviation of the `N = len - 1` returns is defined),
`close_to_close` equals the Bessel-corrected sample standard deviation of the
close-to-close log returns (sum of squared deviations over `N - 1`); the
undefined leading position of the shifted-ratio series is skipped and does not
contaminate the result. -/
theorem spec_c3 (values : List ℝ) (hpos : ∀ x ∈ values, 0 < x)
    (hlen : 3 ≤ values.length) :
    close_to_close (values.map some) =
      some (Real.sqrt
        (((logret values).map fun x =>
            (x - (logret values).sum / ((logret values).length : ℝ)) ^ 2).sum /
          (((logret values).length - 1 : ℕ) : ℝ))) ∧
    (logret values).length = values.length - 1 := by
  have hne : values ≠ [] := by
    intro h
    rw [h] at hlen
    simp at hlen
  have hN : (logret values).length = values.length - 1 := by
    rw [logret, List.length_zipWith, List.length_tail]
    exact min_eq_left (Nat.sub_le _ _)
  refine ⟨?_, hN⟩
  rw [close_to_close, raw_logret values hpos hne, pstd, pvar,
    if_pos (by rw [pcount_cons_none, pcount_map_some, hN]; omega)]
  simp only [valid_cons_none, valid_map_some, psum_cons_none, psum_map_some,
    pcount_cons_none, pcount_map_some]
  have hnn : (0:ℝ) ≤ ((logret values).map fun x =>
      (x - (logret values).sum / ((logret values).length : ℝ)) ^ 2).sum /
      (((logret values).length - 1 : ℕ) : ℝ) := by
    apply div_nonneg
    · apply List.sum_nonneg
      intro x hx
      rcases List.mem_map.mp hx with ⟨y, _, rfl⟩
      exact sq_nonneg _
    · exact Nat.cast_nonneg _
  rw [vsqrt_some, if_pos hnn]

/-- Witness for C3 at `values = [1, 1, 1]`. -/
theorem spec_c3_witness :
    3 ≤ ([(1:ℝ), 1, 1] : List ℝ).length ∧
      (logret [(1:ℝ), 1, 1]).length = ([(1:ℝ), 1, 1] : List ℝ).length - 1 :=
  ⟨by simp, (spec_c3 [1, 1, 1]
    (by intro x hx; simp at hx; simp [hx]) (by simp)).2⟩

/-- C8: on an equal-length strictly positive OHLC quadruple with `N ≥ 1`
observations, `rodgers_satchell` equals
`sqrt((sum(ln(H/C)*ln(H/O)) + sum(ln(L/C)*ln(L/O))) / N)` whenever the
pre-sqrt quantity is nonnegative, and is undefined (NaN) — not clamped to 0 —
whenever that quantity is negative. -/
theorem spec_c8 (O H L C : List ℝ)
    (hO : ∀ x ∈ O, 0 < x) (hH : ∀ x ∈ H, 0 < x)
    (hL2 : ∀ x ∈ L, 0 < x) (hC : ∀ x ∈ C, 0 < x)
    (hn : 1 ≤ O.length) :
    (0 ≤ ((List.zipWith (fun a b => a * b) (List.zipWith logdiv H C)
            (List.zipWith logdiv H O)).sum +
          (List.zipWith (fun a b => a * b) (List.zipWith logdiv L C)
            (List.zipWith logdiv L O)).sum) / (O.length : ℝ) →
      rodgers_satchell (O.map some) (H.map some) (L.map some) (C.map some) =
        some (Real.sqrt
          (((List.zipWith (fun a b => a * b) (List.zipWith logdiv H C)
              (List.zipWith logdiv H O)).sum +
            (List.zipWith (fun a b => a * b) (List.zipWith logdiv L C)
              (List.zipWith logdiv L O)).sum) / (O.length : ℝ)))) ∧
    (((List.zipWith (fun a b => a * b) (List.zipWith logdiv H C)
          (List.zipWith logdiv H O)).sum +
        (List.zipWith (fun a b => a * b) (List.zipWith logdiv L C)
          (List.zipWith logdiv L O)).sum) / (O.length : ℝ) < 0 →
      rodgers_satchell (O.map some) (H.map some) (L.map some) (C.map some) =
        none) := by
  have hcomp : rodgers_satchell (O.map some) (H.map some) (L.map some)
      (C.map some) =
      vsqrt (some
        (((List.zipWith (fun a b => a * b) (List.zipWith logdiv H C)
            (List.zipWith logdiv H O)).sum +
          (List.zipWith (fun a b => a * b) (List.zipWith logdiv L C)
            (List.zipWith logdiv L O)).sum) / (O.length : ℝ))) := by
    simp only [rodgers_satchell]
    rw [zipWith_vld_somes H C hH hC, zipWith_vld_somes H O hH hO,
      zipWith_vld_somes L C hL2 hC, zipWith_vld_somes L O hL2 hO,
      zipWith_vmul_somes, zipWith_vmul_somes, psum_map_some, psum_map_some]
    simp only [List.length_map]
    rw [vdiv_some_some, if_neg (Nat.cast_ne_zero.mpr (by omega))]
  constructor
  · intro hpos
    rw [hcomp, vsqrt_some, if_pos hpos]
  · intro hneg
    rw [hcomp, vsqrt_some, if_neg (not_le.mpr hneg)]

/-- Witness for C8 at `O = H = L = C = [1]`. -/
theorem spec_c8_witness :
    1 ≤ ([(1:ℝ)] : List ℝ).length ∧
      (0 ≤ ((List.zipWith (fun a b => a * b) (List.zipWith logdiv [(1:ℝ)] [(1:ℝ)])
              (List.zipWith logdiv [(1:ℝ)] [(1:ℝ)])).sum +
            (List.zipWith (fun a b => a * b) (List.zipWith logdiv [(1:ℝ)] [(1:ℝ)])
              (List.zipWith logdiv [(1:ℝ)] [(1:ℝ)])).sum) /
            (([(1:ℝ)] : List ℝ).length : ℝ) →
        rodgers_satchell (([(1:ℝ)] : List ℝ).map some) (([(1:ℝ)] : List ℝ).map some)
            (([(1:ℝ)] : List ℝ).map some) (([(1:ℝ)] : List ℝ).map some) =
          some (Real.sqrt
            (((List.zipWith (fun a b => a * b) (List.zipWith logdiv [(1:ℝ)] [(1:ℝ)])
                (List.zipWith logdiv [(1:ℝ)] [(1:ℝ)])).sum +
              (List.zipWith (fun a b => a * b) (List.zipWith logdiv [(1:ℝ)] [(1:ℝ)])
                (List.zipWith logdiv [(1:ℝ)] [(1:ℝ)])).sum) /
              (([(1:ℝ)] : List ℝ).length : ℝ)))) :=
  ⟨by simp, (spec_c8 [1] [1] [1] [1]
    (by intro x hx; simp at hx; simp [hx])
    (by intro x hx; simp at hx; simp [hx])
    (by intro x hx; simp at hx; simp [hx])
    (by intro x hx; simp at hx; simp [hx])
    (by simp)).1⟩

theorem vsq_vlog_vdiv_comm (a b : Val) :
    vsq (vlog (vdiv a b)) = vsq (vlog (vdiv b a)):= by
  cases a with
  | none => simp
  | some x =>
    cases b with
    | none => simp
    | some y =>
      by_cases hy : y = 0
      · by_cases hx : x = 0
        · simp [hx, hy]
        · simp [hx, hy]
      · by_cases hx : x = 0
        · simp [hx, hy]
        · simp only [vdiv_some_some, if_neg hy, if_neg hx, vlog_some]
          by_cases hpos : 0 < x / y
          · have hpos2 : 0 < y / x := by
              rcases div_pos_iff.mp hpos with ⟨h1, h2⟩ | ⟨h1, h2⟩
              · exact div_pos h2 h1
              · exact div_pos_iff.mpr (Or.inr ⟨h2, h1⟩)
            rw [if_pos hpos, if_pos hpos2]
            simp only [vsq_some, Option.some.injEq]
            have hyx : y / x = (x / y)⁻¹ := (inv_div x y).symm
            rw [hyx, Real.log_inv]
            ring
          · have hneg2 : ¬ 0 < y / x := by
              intro hc
              apply hpos
              rcases div_pos_iff.mp hc with ⟨h1, h2⟩ | ⟨h1, h2⟩
              · exact div_pos h2 h1
              · exact div_pos_iff.mpr (Or.inr ⟨h2, h1⟩)
            rw [if_neg hpos, if_neg hneg2]

/-- C9: `garman_klass` as written in the source — with the squared intraday
term computed from the swapped call `intraday_returns(C, O)` — coincides with
the canonical form using `intraday_returns(O, C)`, because the term is squared
and the sign flip of the log ratio is immaterial. Proved for all inputs. -/
theorem spec_c9 (O H L C : List Val) :
    garman_klass O H L C = garman_klass_canonical O H L C := by
  have hswap : (intraday_returns C O).map vsq = (intraday_returns O C).map vsq := by
    simp only [intraday_returns]
    rw [List.map_map, List.map_map, List.zipWith_comm vdiv C O,
      List.map_zipWith, List.map_zipWith]
    congr 1
    funext a b
    exact vsq_vlog_vdiv_comm a b
  simp only [garman_klass, garman_klass_canonical]
  rw [hswap]

theorem replicate_pos (n : ℕ) (c : ℝ) (hc : 0 < c) :
    ∀ x ∈ List.replicate n c, 0 < x := by
  intro x hx
  rw [List.mem_replicate] at hx
  rw [hx.2]
  exact hc

theorem replicate_ne (n : ℕ) (c : ℝ) (hn : 1 ≤ n) : List.replicate n c ≠ [] := by
  intro h
  have h2 := List.length_replicate n c
  rw [h] at h2
  simp at h2
  omega

theorem logdiv_self (c : ℝ) (hc : c ≠ 0) : logdiv c c = 0 := by
  simp [logdiv, div_self hc]

theorem map_vsq_zero (m : ℕ) :
    (List.replicate m (some (0:ℝ))).map vsq = List.replicate m (some (0:ℝ)) := by
  rw [List.map_replicate]
  norm_num

theorem psum_replicate_zero (m : ℕ) :
    psum (List.replicate m (some (0:ℝ))) = 0 := by
  induction m with
  | zero => rfl
  | succ m ih => rw [List.replicate_succ, psum_cons_some, ih, add_zero]

theorem valid_replicate_zero (m : ℕ) :
    valid (List.replicate m (some (0:ℝ))) = List.replicate m (0:ℝ) := by
  induction m with
  | zero => rfl
  | succ m ih => rw [List.replicate_succ, List.replicate_succ, valid_cons_some, ih]

theorem vld_self_const (n : ℕ) (c : ℝ) (hc : 0 < c) :
    (List.zipWith vdiv (List.replicate n (some c))
      (List.replicate n (some c))).map vlog = List.replicate n (some (0:ℝ)) := by
  rw [show (List.replicate n (some c) : List Val) = (List.replicate n c).map some from
      (List.map_replicate).symm,
    zipWith_vld_somes _ _ (replicate_pos n c hc) (replicate_pos n c hc),
    List.zipWith_replicate, logdiv_self c hc.ne', min_self, List.map_replicate]

theorem overnight_const (n : ℕ) (c : ℝ) (hn : 1 ≤ n) (hc : 0 < c) :
    overnight_returns (List.replicate n (some c)) (List.replicate n (some c)) =
      none :: List.replicate (n - 1) (some (0:ℝ)) := by
  rw [show (List.replicate n (some c) : List Val) = (List.replicate n c).map some from
      (List.map_replicate).symm,
    overnight_somes _ _ (replicate_pos n c hc) (replicate_pos n c hc) rfl
      (replicate_ne n c hn),
    List.tail_replicate, List.zipWith_replicate, logdiv_self c hc.ne',
    min_eq_left (Nat.sub_le n 1), List.map_replicate]

theorem intraday_const (n : ℕ) (c : ℝ) (hc : 0 < c) :
    intraday_returns (List.replicate n (some c)) (List.replicate n (some c)) =
      List.replicate n (some (0:ℝ)) :=
  vld_self_const n c hc

theorem range_const (n : ℕ) (c : ℝ) (hc : 0 < c) :
    intraday_range (List.replicate n (some c)) (List.replicate n (some c)) =
      List.replicate n (some (0:ℝ)) :=
  vld_self_const n c hc

theorem gk_ext_const (n : ℕ) (c : ℝ) (hn : 2 ≤ n) (hc : 0 < c) :
    garman_klass_ext (List.replicate n (some c)) (List.replicate n (some c))
      (List.replicate n (some c)) (List.replicate n (some c)) =
      List.replicate n (some 0) := by
  have hcast : ((n:ℕ):ℝ) ≠ 0 := Nat.cast_ne_zero.mpr (by omega)
  simp only [garman_klass_ext, overnight_const n c (by omega) hc,
    intraday_const n c hc, range_const n c hc, List.map_cons, vsq_none,
    map_vsq_zero, psum_cons_none, psum_replicate_zero, List.map_replicate,
    List.length_replicate, Option.map_some']
  congr 1
  norm_num [hcast, psum_replicate_zero]

theorem close_const (n : ℕ) (c : ℝ) (hn : 3 ≤ n) (hc : 0 < c) :
    close_to_close (List.replicate n (some c)) = some 0 := by
  rw [close_to_close,
    show (List.replicate n (some c) : List Val) = (List.replicate n c).map some from
      (List.map_replicate).symm,
    raw_logret _ (replicate_pos n c hc) (replicate_ne n c (by omega))]
  have hlr : logret (List.replicate n c) = List.replicate (n - 1) (0:ℝ) := by
    rw [logret, List.tail_replicate, List.zipWith_replicate, logdiv_self c hc.ne',
      min_eq_left (Nat.sub_le n 1)]
  rw [hlr, List.map_replicate]
  exact pstd_zeros _ (n - 1)
    (by rw [valid_cons_none, valid_replicate_zero]) (by omega)

theorem parkinson_const (n : ℕ) (c : ℝ) (hn : 1 ≤ n) (hc : 0 < c) :
    parkinson_vol (List.replicate n (some c)) (List.replicate n (some c)) =
      some 0 := by
  have hden : (4 * ((n:ℕ):ℝ) * Real.log 2) ≠ 0 := by
    have h2 : (0:ℝ) < Real.log 2 := Real.log_pos (by norm_num)
    have h3 : (0:ℝ) < (n:ℝ) := by exact_mod_cast hn
    exact (mul_pos (mul_pos four_pos h3) h2).ne'
  simp only [parkinson_vol, range_const n c hc, map_vsq_zero,
    psum_replicate_zero, List.length_replicate]
  rw [vdiv_some_some, if_neg hden]
  norm_num

theorem gk_const (n : ℕ) (c : ℝ) (hn : 1 ≤ n) (hc : 0 < c) :
    garman_klass (List.replicate n (some c)) (List.replicate n (some c))
      (List.replicate n (some c)) (List.replicate n (some c)) = some 0 := by
  have hden : ((n:ℕ):ℝ) ≠ 0 := Nat.cast_ne_zero.mpr (by omega)
  simp only [garman_klass, range_const n c hc, intraday_const n c hc,
    map_vsq_zero, psum_replicate_zero, List.length_replicate]
  norm_num [hden]

theorem rs_const (n : ℕ) (c : ℝ) (hn : 1 ≤ n) (hc : 0 < c) :
    rodgers_satchell (List.replicate n (some c)) (List.replicate n (some c))
      (List.replicate n (some c)) (List.replicate n (some c)) = some 0 := by
  have hden : ((n:ℕ):ℝ) ≠ 0 := Nat.cast_ne_zero.mpr (by omega)
  have hhr : List.zipWith vmul (List.replicate n (some (0:ℝ)))
      (List.replicate n (some (0:ℝ))) = List.replicate n (some (0:ℝ)) := by
    rw [List.zipWith_replicate, min_self]
    norm_num
  simp only [rodgers_satchell, vld_self_const n c hc, hhr,
    psum_replicate_zero, List.length_replicate]
  norm_num [hden]

theorem yz_const (n : ℕ) (c : ℝ) (hn : 3 ≤ n) (hc : 0 < c) :
    yang_zhang (List.replicate n (some c)) (List.replicate n (some c))
      (List.replicate n (some c)) (List.replicate n (some c)) =
      Except.ok (some 0) := by
  rw [yang_zhang, if_neg (by rw [List.length_replicate]; omega)]
  have hov : pvar 1 (overnight_returns (List.replicate n (some c))
      (List.replicate n (some c))) = some 0 := by
    rw [overnight_const n c (by omega) hc]
    exact pvar_zeros _ (n - 1)
      (by rw [valid_cons_none, valid_replicate_zero]) (by omega)
  have hiv : pvar 1 (intraday_returns (List.replicate n (some c))
      (List.replicate n (some c))) = some 0 := by
    rw [intraday_const n c hc]
    exact pvar_zeros _ n (valid_replicate_zero n) (by omega)
  have hrs : rodgers_satchell (List.replicate n (some c))
      (List.replicate n (some c)) (List.replicate n (some c))
      (List.replicate n (some c)) = some 0 := rs_const n c (by omega) hc
  rw [hov, hiv, hrs]
  norm_num

/-- C1 (code bug): `garman_klass_ext` never sums the squared intraday range —
`var = oR.sum() + irange / 2.0 - (2*ln2 - 1)*iR.sum()` divides the `irange`
Series elementwise by 2 — so the function returns a series, not the scalar
`sqrt((sum(oR) + sum(irange)/2 - (2*ln2-1)*sum(iR))/N)`. At
`O = C = L = [1, 1]`, `H = [e, 1]` the code yields the two-element series
`[1/2, 0]`, while the claimed scalar formula gives
`sqrt((0 + 1/2 - 0)/2) = 1/2`. -/
theorem spec_c1_eval :
    garman_klass_ext [some (1:ℝ), some 1] [some (Real.exp 1), some 1]
      [some (1:ℝ), some 1] [some (1:ℝ), some 1] = [some (1/2 : ℝ), some 0] := by
  have h4 : Real.sqrt 4 = 2 := by
    have h1 : (4:ℝ) = 2^2 := by norm_num
    rw [h1, Real.sqrt_sq (by norm_num)]
  norm_num [garman_klass_ext, overnight_returns, intraday_returns,
    intraday_range, shift1_cons, Real.exp_pos, Real.log_exp, Real.log_one, h4]

/-- C2 counterexample: the claim says every input of length ≥ 1 yields an
undefined/NaN result, but at the length-2 constant input `O = H = L = C =
[1, 1]` every entry of the result of `garman_klass_ext` is the defined value
`0`: the library's default sum skips the undefined leading squared overnight
return instead of propagating it. -/
theorem spec_c2_cex :
    garman_klass_ext [some (1:ℝ), some 1] [some (1:ℝ), some 1]
      [some (1:ℝ), some 1] [some (1:ℝ), some 1] = [some (0:ℝ), some 0] := by
  norm_num [garman_klass_ext, overnight_returns, intraday_returns,
    intraday_range, shift1_cons, Real.log_one]

/-- C2 (amended): the squared overnight-returns series does have an undefined
position 0, but the default sum skips undefined values, so its total is a
defined real number; consequently `garman_klass_ext` is not forced to NaN —
for every constant positive input of length ≥ 2 the overnight total is `0`
and the result is the all-zeros series. -/
theorem spec_c2 (n : ℕ) (c : ℝ) (hn : 2 ≤ n) (hc : 0 < c) :
    psum ((overnight_returns (List.replicate n (some c))
        (List.replicate n (some c))).map vsq) = 0 ∧
    garman_klass_ext (List.replicate n (some c)) (List.replicate n (some c))
      (List.replicate n (some c)) (List.replicate n (some c)) =
      List.replicate n (some 0) := by
  constructor
  · rw [overnight_const n c (by omega) hc, List.map_cons, vsq_none,
      psum_cons_none, map_vsq_zero, psum_replicate_zero]
  · exact gk_ext_const n c hn hc

/-- Witness for C2 (amended) at the constant input of length 3, value 1. -/
theorem spec_c2_witness :
    (2:ℕ) ≤ 3 ∧
      garman_klass_ext (List.replicate 3 (some (1:ℝ)))
        (List.replicate 3 (some (1:ℝ))) (List.replicate 3 (some (1:ℝ)))
        (List.replicate 3 (some (1:ℝ))) = List.replicate 3 (some 0) :=
  ⟨by omega, (spec_c2 3 1 (by omega) (by norm_num)).2⟩

/-- C4 counterexample: the claim quantifies over every constant input, but at
the length-1 constant input `[1]` the estimator `close_to_close` returns the
undefined value (pandas std of a single skipped-NaN return series with
`ddof = 1`), not `0`. -/
theorem spec_c4_cex :
    close_to_close [some (1:ℝ)] = none ∧ (some (0:ℝ) : Val) ≠ none := by
  constructor
  · norm_num [close_to_close, shift1_cons, pstd, pvar]
  · simp

/-- C4 (amended): for every constant positive input with at least 3 rows,
`close_to_close`, `parkinson_vol`, `garman_klass`, `rodgers_satchell` and
`yang_zhang` all return 0, and `garman_klass_ext` returns the all-zero
series (one zero per row, as its unsummed range term is elementwise); with
fewer rows `close_to_close` (and `yang_zhang`) are undefined instead. -/
theorem spec_c4 (n : ℕ) (c : ℝ) (hn : 3 ≤ n) (hc : 0 < c) :
    close_to_close (List.replicate n (some c)) = some 0 ∧
    parkinson_vol (List.replicate n (some c)) (List.replicate n (some c)) =
      some 0 ∧
    garman_klass (List.replicate n (some c)) (List.replicate n (some c))
      (List.replicate n (some c)) (List.replicate n (some c)) = some 0 ∧
    garman_klass_ext (List.replicate n (some c)) (List.replicate n (some c))
      (List.replicate n (some c)) (List.replicate n (some c)) =
      List.replicate n (some 0) ∧
    rodgers_satchell (List.replicate n (some c)) (List.replicate n (some c))
      (List.replicate n (some c)) (List.replicate n (some c)) = some 0 ∧
    yang_zhang (List.replicate n (some c)) (List.replicate n (some c))
      (List.replicate n (some c)) (List.replicate n (some c)) =
      Except.ok (some 0) :=
  ⟨close_const n c hn hc, parkinson_const n c (by omega) hc,
    gk_const n c (by omega) hc, gk_ext_const n c (by omega) hc,
    rs_const n c (by omega) hc, yz_const n c hn hc⟩

/-- Witness for C4 (amended) at the constant input of length 3, value 1. -/
theorem spec_c4_witness :
    (3:ℕ) ≤ 3 ∧ close_to_close (List.replicate 3 (some (1:ℝ))) = some 0 :=
  ⟨by omega, (spec_c4 3 1 (by omega) (by norm_num)).1⟩

theorem vld_scale (c : ℝ) (hc : c ≠ 0) (a b : Val) :
    vlog (vdiv (a.map fun x => c * x) (b.map fun x => c * x)) =
      vlog (vdiv a b) := by
  cases a with
  | none => simp
  | some x =>
    cases b with
    | none => simp
    | some y =>
      simp only [Option.map_some', vdiv_some_some]
      by_cases hy : y = 0
      · rw [if_pos (by rw [hy, mul_zero]), if_pos hy]
      · rw [if_neg (fun h => hy ((mul_eq_zero.mp h).resolve_left hc)), if_neg hy,
          mul_div_mul_left x y hc]

theorem map_scale_somes (c : ℝ) (l : List ℝ) :
    (l.map fun x => c * x).map some =
      (l.map some).map (Option.map fun x => c * x) := by
  rw [List.map_map, List.map_map]
  rfl

theorem shift1_map_scale (c : ℝ) (M : List Val) :
    shift1 (M.map (Option.map fun x => c * x)) =
      (shift1 M).map (Option.map fun x => c * x) := by
  cases M with
  | nil => rfl
  | cons b M =>
    rw [List.map_cons, shift1_cons, shift1_cons, List.map_cons,
      ← List.map_cons (Option.map fun x => c * x) b M, ← List.map_dropLast]
    rfl

theorem raw_scale (c : ℝ) (hc : c ≠ 0) (X Y : List Val) :
    (List.zipWith vdiv (X.map (Option.map fun x => c * x))
      (Y.map (Option.map fun x => c * x))).map vlog =
      (List.zipWith vdiv X Y).map vlog := by
  rw [List.zipWith_map vdiv _ _ X Y, List.map_zipWith, List.map_zipWith]
  congr 1
  funext a b
  exact vld_scale c hc a b

theorem overnight_scale (c : ℝ) (hc : c ≠ 0) (O C : List Val) :
    overnight_returns (O.map (Option.map fun x => c * x))
      (C.map (Option.map fun x => c * x)) = overnight_returns O C := by
  rw [overnight_returns, overnight_returns, shift1_map_scale, raw_scale c hc]

theorem intraday_scale (c : ℝ) (hc : c ≠ 0) (O C : List Val) :
    intraday_returns (O.map (Option.map fun x => c * x))
      (C.map (Option.map fun x => c * x)) = intraday_returns O C := by
  rw [intraday_returns, intraday_returns, raw_scale c hc]

theorem range_scale (c : ℝ) (hc : c ≠ 0) (H L : List Val) :
    intraday_range (H.map (Option.map fun x => c * x))
      (L.map (Option.map fun x => c * x)) = intraday_range H L := by
  rw [intraday_range, intraday_range, raw_scale c hc]

theorem log_returns_scale (c : ℝ) (hc : c ≠ 0) (values : List Val) :
    log_returns (values.map (Option.map fun x => c * x)) =
      log_returns values := by
  rw [log_returns, log_returns, shift1_map_scale, raw_scale c hc]

theorem close_scale (c : ℝ) (hc : c ≠ 0) (values : List Val) :
    close_to_close (values.map (Option.map fun x => c * x)) =
      close_to_close values := by
  rw [close_to_close, close_to_close, shift1_map_scale, raw_scale c hc]

theorem parkinson_scale (c : ℝ) (hc : c ≠ 0) (H L : List Val) :
    parkinson_vol (H.map (Option.map fun x => c * x))
      (L.map (Option.map fun x => c * x)) = parkinson_vol H L := by
  simp only [parkinson_vol]
  rw [range_scale c hc]

theorem gk_scale (c : ℝ) (hc : c ≠ 0) (O H L C : List Val) :
    garman_klass (O.map (Option.map fun x => c * x))
      (H.map (Option.map fun x => c * x)) (L.map (Option.map fun x => c * x))
      (C.map (Option.map fun x => c * x)) = garman_klass O H L C := by
  simp only [garman_klass]
  rw [range_scale c hc, intraday_scale c hc]

theorem gk_ext_scale (c : ℝ) (hc : c ≠ 0) (O H L C : List Val) :
    garman_klass_ext (O.map (Option.map fun x => c * x))
      (H.map (Option.map fun x => c * x)) (L.map (Option.map fun x => c * x))
      (C.map (Option.map fun x => c * x)) = garman_klass_ext O H L C := by
  simp only [garman_klass_ext]
  rw [overnight_scale c hc, intraday_scale c hc, range_scale c hc,
    List.length_map]

theorem rs_scale (c : ℝ) (hc : c ≠ 0) (O H L C : List Val) :
    rodgers_satchell (O.map (Option.map fun x => c * x))
      (H.map (Option.map fun x => c * x)) (L.map (Option.map fun x => c * x))
      (C.map (Option.map fun x => c * x)) = rodgers_satchell O H L C := by
  simp only [rodgers_satchell]
  rw [raw_scale c hc H C, raw_scale c hc H O, raw_scale c hc L C,
    raw_scale c hc L O, List.length_map]

theorem yz_scale (c : ℝ) (hc : c ≠ 0) (O H L C : List Val) :
    yang_zhang (O.map (Option.map fun x => c * x))
      (H.map (Option.map fun x => c * x)) (L.map (Option.map fun x => c * x))
      (C.map (Option.map fun x => c * x)) = yang_zhang O H L C := by
  simp only [yang_zhang]
  rw [List.length_map, overnight_scale c hc, intraday_scale c hc, rs_scale c hc]

/-- C10: multiplying every input series by a positive scale factor leaves the
result of each of `log_returns`, `close_to_close`, `parkinson_vol`,
`garman_klass`, `garman_klass_ext`, `rodgers_satchell` and `yang_zhang`
unchanged, since every formula depends only on price ratios. -/
theorem spec_c10 (c : ℝ) (hc : 0 < c) (values O H L C : List ℝ)
    (hval : ∀ x ∈ values, 0 < x) (hO : ∀ x ∈ O, 0 < x) (hH : ∀ x ∈ H, 0 < x)
    (hL2 : ∀ x ∈ L, 0 < x) (hC : ∀ x ∈ C, 0 < x)
    (hHO : H.length = O.length) (hLO : L.length = O.length)
    (hCO : C.length = O.length) :
    log_returns ((values.map fun x => c * x).map some) =
      log_returns (values.map some) ∧
    close_to_close ((values.map fun x => c * x).map some) =
      close_to_close (values.map some) ∧
    parkinson_vol ((H.map fun x => c * x).map some)
        ((L.map fun x => c * x).map some) =
      parkinson_vol (H.map some) (L.map some) ∧
    garman_klass ((O.map fun x => c * x).map some)
        ((H.map fun x => c * x).map some) ((L.map fun x => c * x).map some)
        ((C.map fun x => c * x).map some) =
      garman_klass (O.map some) (H.map some) (L.map some) (C.map some) ∧
    garman_klass_ext ((O.map fun x => c * x).map some)
        ((H.map fun x => c * x).map some) ((L.map fun x => c * x).map some)
        ((C.map fun x => c * x).map some) =
      garman_klass_ext (O.map some) (H.map some) (L.map some) (C.map some) ∧
    rodgers_satchell ((O.map fun x => c * x).map some)
        ((H.map fun x => c * x).map some) ((L.map fun x => c * x).map some)
        ((C.map fun x => c * x).map some) =
      rodgers_satchell (O.map some) (H.map some) (L.map some) (C.map some) ∧
    yang_zhang ((O.map fun x => c * x).map some)
        ((H.map fun x => c * x).map some) ((L.map fun x => c * x).map some)
        ((C.map fun x => c * x).map some) =
      yang_zhang (O.map some) (H.map some) (L.map some) (C.map some) := by
  have hcne : c ≠ 0 := hc.ne'
  refine ⟨?_, ?_, ?_, ?_, ?_, ?_, ?_⟩
  · rw [map_scale_somes, log_returns_scale c hcne]
  · rw [map_scale_somes, close_scale c hcne]
  · rw [map_scale_somes, map_scale_somes, parkinson_scale c hcne]
  · rw [map_scale_somes, map_scale_somes, map_scale_somes, map_scale_somes,
      gk_scale c hcne]
  · rw [map_scale_somes, map_scale_somes, map_scale_somes, map_scale_somes,
      gk_ext_scale c hcne]
  · rw [map_scale_somes, map_scale_somes, map_scale_somes, map_scale_somes,
      rs_scale c hcne]
  · rw [map_scale_somes, map_scale_somes, map_scale_somes, map_scale_somes,
      yz_scale c hcne]

/-- Witness for C10 with scale 2 on the inputs `values = O = H = L = C = [1]`. -/
theorem spec_c10_witness :
    (0:ℝ) < 2 ∧
      close_to_close ((([(1:ℝ)] : List ℝ).map fun x => 2 * x).map some) =
        close_to_close (([(1:ℝ)] : List ℝ).map some) :=
  ⟨by norm_num, (spec_c10 2 (by norm_num) [1] [1] [1] [1] [1]
    (by intro x hx; simp at hx; simp [hx])
    (by intro x hx; simp at hx; simp [hx])
    (by intro x hx; simp at hx; simp [hx])
    (by intro x hx; simp at hx; simp [hx])
    (by intro x hx; simp at hx; simp [hx])
    rfl rfl rfl).2.1⟩

end

end Volatility
